import Mathlib

/-!
Verification of the text-segmentation microservice (`src/main.py`).

The program splits a long text into bounded-length segments, preferring to
cut at sentence-ending punctuation, then at secondary punctuation, then at
whitespace, and otherwise at the length budget.  We embed the relevant
Python code shallowly: strings become `List Char`, pydantic validation
becomes a fallible smart constructor returning `Except`, and the unbounded
`while True` loop becomes a fuel-indexed recursion together with a proof
that the fuel is never exhausted.
-/

namespace Gat

/-- `Settings.request_min_length` from `main.py`. -/
def request_min_length : Nat := 1

/-- `Settings.request_max_length` from `main.py`. -/
def request_max_length : Nat := 4194304

/-- `Settings.response_min_length` from `main.py`. -/
def response_min_length : Nat := 1

/-- `Settings.response_max_length` from `main.py`. -/
def response_max_length : Nat := 256

/-- `TextSplitter._terminal`: sentence-terminating punctuation. -/
def terminal : List Char := ['.', '!', '?', ';']

/-- `TextSplitter._internal`: internal punctuation. -/
def internal : List Char := ['-', ':', ',']

/-- `TextSplitter._space`: whitespace characters recognised by the splitter. -/
def space : List Char := ['\n', '\r', '\t', '\x0c', ' ']

/-- The `Sentence` pydantic model: a segment text together with the offset
`end` at which the next window resumes.  (`end` is a Lean keyword, so the
field is called `end_`.) -/
structure Sentence where
  text : List Char
  end_ : Nat
deriving DecidableEq, Repr

instance : DecidableEq (Except Unit Sentence) := fun a b =>
  match a, b with
  | Except.error x, Except.error y => isTrue (by cases x; cases y; rfl)
  | Except.error _, Except.ok _ => isFalse (fun h => Except.noConfusion h)
  | Except.ok _, Except.error _ => isFalse (fun h => Except.noConfusion h)
  | Except.ok s, Except.ok t =>
    if h : s = t then isTrue (by rw [h])
    else isFalse (fun hc => h (by injection hc))

/-- Pydantic validation of `Sentence`: `text` must satisfy
`MinLen(response_min_length)`/`MaxLen(response_max_length)` and `end` must
satisfy `Ge(response_min_length)`/`Le(response_max_length)`; constructing a
`Sentence` violating these raises a `ValidationError`, modelled as
`Except.error`. -/
def mkSentence (text : List Char) (e : Nat) : Except Unit Sentence :=
  if response_min_length ≤ text.length ∧ text.length ≤ response_max_length
      ∧ response_min_length ≤ e ∧ e ≤ response_max_length then
    Except.ok ⟨text, e⟩
  else
    Except.error ()

/-- The marker bundle of the `SplitterMemory` dataclass.  The Python record
also carries the running `cursor` and current `character`; those are passed
explicitly to the functions below, the persistent state is the three
optional markers. -/
structure SplitterMemory where
  terminal_at : Option Nat := none
  internal_at : Option Nat := none
  space_at : Option Nat := none
deriving DecidableEq, Repr

/-- `TextSplitter._check_character`: classify `character` (found at index
`cursor` of the window) and record the marker, keeping only the first hit
of each class seen by the backward scan (`is None` guards). -/
def checkCharacter (cursor : Nat) (character : Char) (m : SplitterMemory) :
    SplitterMemory :=
  if character ∈ terminal then
    { m with terminal_at := some cursor }
  else if character ∈ internal ∧ m.internal_at = none then
    { m with internal_at := some cursor }
  else if character ∈ space ∧ m.space_at = none then
    { m with space_at := some cursor }
  else
    m

/-- The character `text[i]`, with a harmless default for out-of-range
indices (the loops below only ever read in-range positions, where Python
indexing succeeds). -/
def charAt (text : List Char) (i : Nat) : Char := text.getD i 'a'

/-- The backward-scan loop of `TextSplitter._extract_sentence`: the cursor
runs from `len(text) - 1` down to `0`, stopping early as soon as
`terminal_at` is set.  (In Python the loop also runs the `cursor = -1`
step; it is observationally identical because the loop body does nothing
after the final check.) -/
def scanLoop (text : List Char) : Nat → SplitterMemory → SplitterMemory
  | 0, m => checkCharacter 0 (charAt text 0) m
  | i + 1, m =>
    let m1 := checkCharacter (i + 1) (charAt text (i + 1)) m
    if m1.terminal_at.isSome then m1 else scanLoop text i m1

/-- Python truthiness of an `int | None` value, as used by
`if memory.terminal_at:` in `_process_points`: `None` and `0` are falsy. -/
def truthy : Option Nat → Bool
  | none => false
  | some n => n != 0

/-- `TextSplitter._process_points`: decide the cut from the recorded
markers.  Note the source tests the markers with Python truthiness, so a
marker recorded at window index `0` is treated like an absent one. -/
def processPoints (text : List Char) (m : SplitterMemory) : Except Unit Sentence :=
  if truthy m.terminal_at then
    let t := m.terminal_at.getD 0
    mkSentence (text.take (t + 1)) (t + 1)
  else if truthy m.internal_at then
    let i := m.internal_at.getD 0
    mkSentence (text.take (i + 1)) (i + 1)
  else if truthy m.space_at then
    let s := m.space_at.getD 0
    mkSentence (text.take s) (s + 1)
  else
    mkSentence text text.length

/-- `TextSplitter._extract_sentence`: start the scan at `len(text) - 1`
(for the empty window the cursor starts at `-1`, so the scan never runs)
and process the recorded markers. -/
def extractSentence (text : List Char) : Except Unit Sentence :=
  match text.length with
  | 0 => processPoints text {}
  | n + 1 => processPoints text (scanLoop text n {})

/-- Python slice `text[a:b]` for the index ranges used by `split`
(`0 ≤ a`, `0 ≤ b`). -/
def pySlice (text : List Char) (a b : Nat) : List Char :=
  (text.drop a).take (b - a)

/-- Outcome of a run of the splitting generator: `done` when the loop hit
its `break`, `error` when a pydantic `ValidationError` was raised while
producing the stream, `fuelOut` when the fuel ran out (proved unreachable
for the fuel chosen in `split`). -/
inductive SplitOutcome where
  | done
  | error
  | fuelOut
deriving DecidableEq, Repr

/-- The `while True` loop of `TextSplitter.split`, as a fuel-indexed
recursion.  At loop entry `end = start + response_max_length`; when
`end > len(text)` the final (possibly shorter) window is extracted, its
text yielded, and the loop breaks; otherwise a full window is extracted,
`start` advances by `sentence.end`, and `sentence.text` is yielded.  The
returned list collects the yielded segments in order. -/
def splitLoop (text : List Char) : Nat → Nat → List (List Char) × SplitOutcome
  | 0, _ => ([], SplitOutcome.fuelOut)
  | fuel + 1, start =>
    if start + response_max_length > text.length then
      match extractSentence (pySlice text start text.length) with
      | Except.error _ => ([], SplitOutcome.error)
      | Except.ok s => ([s.text], SplitOutcome.done)
    else
      match extractSentence (pySlice text start (start + response_max_length)) with
      | Except.error _ => ([], SplitOutcome.error)
      | Except.ok s =>
        let r := splitLoop text fuel (start + s.end_)
        (s.text :: r.1, r.2)

/-- `TextSplitter.split`.  The fuel `text.length + 1` dominates the number
of loop iterations (each non-final iteration advances `start` by at least
one character); `splitLoop_not_fuelOut` below proves the `fuelOut` branch
unreachable, so this equals the unbounded Python loop. -/
def split (text : List Char) : List (List Char) × SplitOutcome :=
  splitLoop text (text.length + 1) 0

/-! ## Transport layer (`ResponseBody`, `RequestBody._split_sentences`) -/

/-- Lower-case hexadecimal digit, used for JSON `\u00XX` escapes. -/
def hexDigit (n : Nat) : Char :=
  if n < 10 then Char.ofNat (48 + n) else Char.ofNat (87 + n)

/-- JSON string escaping of one character, as produced by pydantic's
`model_dump_json` (serde_json): the two mandatory escapes, the five
short control escapes, `\u00XX` for remaining control characters, and
everything else verbatim. -/
def jsonEscapeChar (c : Char) : List Char :=
  if c = '"' then ['\\', '"']
  else if c = '\\' then ['\\', '\\']
  else if c = '\x08' then ['\\', 'b']
  else if c = '\x0c' then ['\\', 'f']
  else if c = '\n' then ['\\', 'n']
  else if c = '\r' then ['\\', 'r']
  else if c = '\t' then ['\\', 't']
  else if c.toNat < 32 then
    ['\\', 'u', '0', '0', hexDigit (c.toNat / 16), hexDigit (c.toNat % 16)]
  else [c]

/-- The opening brace character (written via `Char.ofNat 123`). -/
def lbrace : Char := Char.ofNat 123

/-- The closing brace character (written via `Char.ofNat 125`). -/
def rbrace : Char := Char.ofNat 125

/-- `ResponseBody(text=text, done=done).model_dump_json()`: the compact
JSON record emitted for one stream line. -/
def responseBodyJson (text : List Char) (done : Bool) : List Char :=
  [lbrace] ++ "\"text\":".data ++ ['"'] ++ text.flatMap jsonEscapeChar ++ ['"']
    ++ ",\"done\":".data ++ (if done then "true".data else "false".data)
    ++ [rbrace]

/-- `RequestBody._split_sentences`: one newline-terminated JSON record per
segment yielded by `split`, followed — only if the generator finished
without raising — by the terminating record built from
`ResponseBody(text=' ', done=True)`. -/
def splitSentences (text : List Char) : List (List Char) × SplitOutcome :=
  let r := split text
  let records := r.1.map (fun s => responseBodyJson s false ++ ['\n'])
  match r.2 with
  | SplitOutcome.done =>
    (records ++ [responseBodyJson [' '] true ++ ['\n']], SplitOutcome.done)
  | o => (records, o)

/-! ## Spec-side reference definitions

These definitions are written from the specification's words (rightmost
boundary of each class, strict priority order) and are compared against
the embedded code above; they are not part of the source. -/

/-- `c` is in the spec's Terminal class. -/
def isTerminalMark (c : Char) : Bool := decide (c ∈ terminal)

/-- `c` is in the spec's Internal class. -/
def isInternalMark (c : Char) : Bool := decide (c ∈ internal)

/-- `c` is in the spec's Space class. -/
def isSpaceMark (c : Char) : Bool := decide (c ∈ space)

/-- Largest index `j ≤ i` with `p (text[j])`, scanning downward from `i`. -/
def lastIdxLe (p : Char → Bool) (text : List Char) : Nat → Option Nat
  | 0 => if p (charAt text 0) then some 0 else none
  | i + 1 => if p (charAt text (i + 1)) then some (i + 1) else lastIdxLe p text i

/-- Rightmost index of `text` whose character satisfies `p`. -/
def rightmost (p : Char → Bool) (text : List Char) : Option Nat :=
  match text.length with
  | 0 => none
  | n + 1 => lastIdxLe p text n

/-- Keep an index only when it is positive: how the code's truthiness test
filters a recorded marker. -/
def posOnly : Option Nat → Option Nat
  | some (k + 1) => some (k + 1)
  | _ => none

/-- The cut decision exactly as claim C4 states it: strict priority
Terminal > Internal > Space > hard cut, each class cutting at its
rightmost occurrence, a Space cut excluding the space from the segment. -/
def claimedCut (w : List Char) : List Char × Nat :=
  match rightmost isTerminalMark w with
  | some t => (w.take (t + 1), t + 1)
  | none =>
    match rightmost isInternalMark w with
    | some i => (w.take (i + 1), i + 1)
    | none =>
      match rightmost isSpaceMark w with
      | some s => (w.take s, s + 1)
      | none => (w, w.length)

/-- The cut decision the code actually implements: the same priority law,
but a rightmost boundary sitting at window index `0` is treated as absent
(`posOnly`), falling through to the next class or to the hard cut. -/
def amendedCut (w : List Char) : List Char × Nat :=
  match posOnly (rightmost isTerminalMark w) with
  | some t => (w.take (t + 1), t + 1)
  | none =>
    match posOnly (rightmost isInternalMark w) with
    | some i => (w.take (i + 1), i + 1)
    | none =>
      match posOnly (rightmost isSpaceMark w) with
      | some s => (w.take s, s + 1)
      | none => (w, w.length)

/-- A segment still carries leading or trailing whitespace (negation of
the spec's trimming guarantee, used to refute claim C5). -/
def hasOuterSpace (s : List Char) : Bool :=
  (match s.head? with
   | some c => isSpaceMark c
   | none => false)
  || (match s.getLast? with
      | some c => isSpaceMark c
      | none => false)

/-! ## Basic facts about the classifier and the scan -/

lemma terminal_not_internal {c : Char} (h : c ∈ terminal) : c ∉ internal := by
  fin_cases h <;> decide

lemma terminal_not_space {c : Char} (h : c ∈ terminal) : c ∉ space := by
  fin_cases h <;> decide

lemma internal_not_space {c : Char} (h : c ∈ internal) : c ∉ space := by
  fin_cases h <;> decide

lemma ck_terminal_at (i : Nat) (c : Char) (m : SplitterMemory) :
    (checkCharacter i c m).terminal_at =
      if c ∈ terminal then some i else m.terminal_at := by
  unfold checkCharacter
  split_ifs <;> rfl

lemma ck_internal_at (i : Nat) (c : Char) (m : SplitterMemory) :
    (checkCharacter i c m).internal_at =
      if c ∉ terminal ∧ c ∈ internal ∧ m.internal_at = none then some i
      else m.internal_at := by
  unfold checkCharacter
  split_ifs <;> first | rfl | tauto

lemma ck_space_at (i : Nat) (c : Char) (m : SplitterMemory) :
    (checkCharacter i c m).space_at =
      if c ∉ terminal ∧ ¬(c ∈ internal ∧ m.internal_at = none)
          ∧ c ∈ space ∧ m.space_at = none then some i
      else m.space_at := by
  unfold checkCharacter
  split_ifs <;> first | rfl | tauto

lemma lastIdxLe_le {p : Char → Bool} {text : List Char} :
    ∀ i j, lastIdxLe p text i = some j → j ≤ i := by
  intro i
  induction i with
  | zero =>
    intro j h
    unfold lastIdxLe at h
    split at h
    · cases h
      exact Nat.le_refl 0
    · exact Option.noConfusion h
  | succ i ih =>
    intro j h
    unfold lastIdxLe at h
    split at h
    · cases h
      exact Nat.le_refl _
    · exact Nat.le_succ_of_le (ih j h)

lemma lastIdxLe_none_iff {p : Char → Bool} {text : List Char} :
    ∀ i, lastIdxLe p text i = none ↔
      ∀ j, j ≤ i → p (charAt text j) = false := by
  intro i
  induction i with
  | zero =>
    unfold lastIdxLe
    split <;> rename_i h
    · constructor
      · intro hx
        exact Option.noConfusion hx
      · intro hall
        have hc := hall 0 (Nat.le_refl 0)
        rw [h] at hc
        exact Bool.noConfusion hc
    · simp only [true_iff]
      intro j hj
      interval_cases j
      simpa using h
  | succ i ih =>
    unfold lastIdxLe
    split <;> rename_i h
    · constructor
      · intro hx
        exact Option.noConfusion hx
      · intro hall
        have hc := hall (i + 1) (Nat.le_refl _)
        rw [h] at hc
        exact Bool.noConfusion hc
    · rw [ih]
      constructor
      · intro hall j hj
        rcases Nat.lt_or_ge j (i + 1) with hlt | hge
        · exact hall j (by omega)
        · have : j = i + 1 := by omega
          subst this
          simpa using h
      · intro hall j hj
        exact hall j (by omega)

lemma lastIdxLe_some_iff {p : Char → Bool} {text : List Char} :
    ∀ i j, lastIdxLe p text i = some j ↔
      (j ≤ i ∧ p (charAt text j) = true ∧
        ∀ k, j < k → k ≤ i → p (charAt text k) = false) := by
  intro i
  induction i with
  | zero =>
    intro j
    unfold lastIdxLe
    split <;> rename_i h
    · constructor
      · intro hj
        cases hj
        exact ⟨Nat.le_refl 0, h, by omega⟩
      · rintro ⟨hj, -, -⟩
        interval_cases j
        rfl
    · constructor
      · intro hj
        exact Option.noConfusion hj
      · rintro ⟨hj, hp, -⟩
        interval_cases j
        simp [hp] at h
  | succ i ih =>
    intro j
    unfold lastIdxLe
    split <;> rename_i h
    · constructor
      · intro hj
        cases hj
        exact ⟨Nat.le_refl _, h, by omega⟩
      · rintro ⟨hj, hp, hmax⟩
        rcases Nat.lt_or_ge j (i + 1) with hlt | hge
        · have := hmax (i + 1) (by omega) (by omega)
          simp [h] at this
        · have : j = i + 1 := by omega
          subst this
          rfl
    · rw [ih]
      constructor
      · rintro ⟨hj, hp, hmax⟩
        refine ⟨by omega, hp, ?_⟩
        intro k hk1 hk2
        rcases Nat.lt_or_ge k (i + 1) with hlt | hge
        · exact hmax k hk1 (by omega)
        · have : k = i + 1 := by omega
          subst this
          simpa using h
      · rintro ⟨hj, hp, hmax⟩
        have hji : j ≤ i := by
          rcases Nat.lt_or_ge j (i + 1) with hlt | hge
          · omega
          · have : j = i + 1 := by omega
            subst this
            simp [hp] at h
        exact ⟨hji, hp, fun k hk1 hk2 => hmax k hk1 (by omega)⟩

lemma truthy_none : truthy none = false := rfl

lemma truthy_some_zero : truthy (some 0) = false := rfl

lemma truthy_some_succ (k : Nat) : truthy (some (k + 1)) = true := rfl

lemma mkSentence_ok {t : List Char} {e : Nat} (ht1 : 1 ≤ t.length)
    (ht2 : t.length ≤ 256) (he1 : 1 ≤ e) (he2 : e ≤ 256) :
    mkSentence t e = Except.ok ⟨t, e⟩ := by
  unfold mkSentence
  rw [if_pos]
  exact ⟨ht1, ht2, he1, he2⟩

lemma lastIdxLe_zero (p : Char → Bool) (text : List Char) :
    lastIdxLe p text 0 = if p (charAt text 0) then some 0 else none := by
  rfl

lemma lastIdxLe_succ (p : Char → Bool) (text : List Char) (i : Nat) :
    lastIdxLe p text (i + 1) =
      if p (charAt text (i + 1)) then some (i + 1) else lastIdxLe p text i := by
  rfl

/-- The scan records in `terminal_at` exactly the rightmost Terminal
position at or below the starting cursor. -/
lemma scan_terminal_at (text : List Char) :
    ∀ i m, m.terminal_at = none →
      (scanLoop text i m).terminal_at = lastIdxLe isTerminalMark text i := by
  intro i
  induction i with
  | zero =>
    intro m hm
    unfold scanLoop
    rw [ck_terminal_at, lastIdxLe_zero]
    by_cases hc : charAt text 0 ∈ terminal
    · simp [hc, isTerminalMark]
    · simp [hc, isTerminalMark, hm]
  | succ i ih =>
    intro m hm
    unfold scanLoop
    by_cases hc : charAt text (i + 1) ∈ terminal
    · have h1 : (checkCharacter (i + 1) (charAt text (i + 1)) m).terminal_at
          = some (i + 1) := by
        rw [ck_terminal_at, if_pos hc]
      simp only [h1, Option.isSome_some, if_true]
      rw [lastIdxLe_succ]
      simp [isTerminalMark, hc]
    · have h1 : (checkCharacter (i + 1) (charAt text (i + 1)) m).terminal_at
          = none := by
        rw [ck_terminal_at, if_neg hc, hm]
      simp only [h1, Option.isSome_none, Bool.false_eq_true, if_false]
      rw [ih _ h1, lastIdxLe_succ]
      simp [isTerminalMark, hc]

/-- When no Terminal character sits at a positive scanned index, the scan
reaches index `0` and `internal_at` ends up at the rightmost Internal
position (unless a marker was already recorded, which is kept). -/
lemma scan_internal_at (text : List Char) :
    ∀ i m, m.terminal_at = none →
      (∀ j, 1 ≤ j → j ≤ i → charAt text j ∉ terminal) →
      (scanLoop text i m).internal_at =
        (match m.internal_at with
         | some v => some v
         | none => lastIdxLe isInternalMark text i) := by
  intro i
  induction i with
  | zero =>
    intro m hm _
    unfold scanLoop
    rw [ck_internal_at, lastIdxLe_zero]
    by_cases hi : charAt text 0 ∈ internal
    · have hc : charAt text 0 ∉ terminal := fun ht => terminal_not_internal ht hi
      cases hmi : m.internal_at with
      | none =>
        rw [if_pos ⟨hc, hi, rfl⟩]
        simp [isInternalMark, hi]
      | some v =>
        rw [if_neg (by simp)]
    · cases hmi : m.internal_at with
      | none =>
        rw [if_neg (by tauto)]
        simp [isInternalMark, hi]
      | some v =>
        rw [if_neg (by tauto)]
  | succ i ih =>
    intro m hm hno
    have hc : charAt text (i + 1) ∉ terminal :=
      hno (i + 1) (by omega) (Nat.le_refl _)
    unfold scanLoop
    have h1 : (checkCharacter (i + 1) (charAt text (i + 1)) m).terminal_at
        = none := by
      rw [ck_terminal_at, if_neg hc, hm]
    simp only [h1, Option.isSome_none, Bool.false_eq_true, if_false]
    rw [ih _ h1 (fun j hj1 hj2 => hno j hj1 (by omega))]
    rw [ck_internal_at, lastIdxLe_succ]
    by_cases hi : charAt text (i + 1) ∈ internal
    · cases hmi : m.internal_at with
      | none =>
        rw [if_pos ⟨hc, hi, rfl⟩]
        simp [isInternalMark, hi]
      | some v =>
        rw [if_neg (by simp)]
    · cases hmi : m.internal_at with
      | none =>
        rw [if_neg (by tauto)]
        simp [isInternalMark, hi]
      | some v =>
        rw [if_neg (by tauto)]

/-- When no Terminal character sits at a positive scanned index,
`space_at` ends up at the rightmost Space position (unless a marker was
already recorded, which is kept). -/
lemma scan_space_at (text : List Char) :
    ∀ i m, m.terminal_at = none →
      (∀ j, 1 ≤ j → j ≤ i → charAt text j ∉ terminal) →
      (scanLoop text i m).space_at =
        (match m.space_at with
         | some v => some v
         | none => lastIdxLe isSpaceMark text i) := by
  intro i
  induction i with
  | zero =>
    intro m hm _
    unfold scanLoop
    rw [ck_space_at, lastIdxLe_zero]
    by_cases hs : charAt text 0 ∈ space
    · have hc : charAt text 0 ∉ terminal := fun ht => terminal_not_space ht hs
      have hni : charAt text 0 ∉ internal := fun hi => internal_not_space hi hs
      cases hms : m.space_at with
      | none =>
        rw [if_pos ⟨hc, fun hx => absurd hx.1 hni, hs, rfl⟩]
        simp [isSpaceMark, hs]
      | some v =>
        rw [if_neg (by simp)]
    · cases hms : m.space_at with
      | none =>
        rw [if_neg (by tauto)]
        simp [isSpaceMark, hs]
      | some v =>
        rw [if_neg (by tauto)]
  | succ i ih =>
    intro m hm hno
    have hc : charAt text (i + 1) ∉ terminal :=
      hno (i + 1) (by omega) (Nat.le_refl _)
    unfold scanLoop
    have h1 : (checkCharacter (i + 1) (charAt text (i + 1)) m).terminal_at
        = none := by
      rw [ck_terminal_at, if_neg hc, hm]
    simp only [h1, Option.isSome_none, Bool.false_eq_true, if_false]
    rw [ih _ h1 (fun j hj1 hj2 => hno j hj1 (by omega))]
    rw [ck_space_at, lastIdxLe_succ]
    by_cases hs : charAt text (i + 1) ∈ space
    · have hni : charAt text (i + 1) ∉ internal :=
        fun hx => internal_not_space hx hs
      cases hms : m.space_at with
      | none =>
        rw [if_pos ⟨hc, fun hx => absurd hx.1 hni, hs, rfl⟩]
        simp [isSpaceMark, hs]
      | some v =>
        rw [if_neg (by simp)]
    · cases hms : m.space_at with
      | none =>
        rw [if_neg (by tauto)]
        simp [isSpaceMark, hs]
      | some v =>
        rw [if_neg (by tauto)]

/-! ## The cut decision of `_process_points` -/

lemma processPoints_terminal (text : List Char) (m : SplitterMemory) (t : Nat)
    (h : m.terminal_at = some (t + 1)) :
    processPoints text m = mkSentence (text.take (t + 2)) (t + 2) := by
  unfold processPoints
  rw [h]
  rfl

lemma processPoints_internal (text : List Char) (m : SplitterMemory) (i : Nat)
    (h1 : truthy m.terminal_at = false) (h2 : m.internal_at = some (i + 1)) :
    processPoints text m = mkSentence (text.take (i + 2)) (i + 2) := by
  unfold processPoints
  rw [h2, if_neg (by simp [h1])]
  rfl

lemma processPoints_space (text : List Char) (m : SplitterMemory) (s : Nat)
    (h1 : truthy m.terminal_at = false) (h2 : truthy m.internal_at = false)
    (h3 : m.space_at = some (s + 1)) :
    processPoints text m = mkSentence (text.take (s + 1)) (s + 2) := by
  unfold processPoints
  rw [h3, if_neg (by simp [h1]), if_neg (by simp [h2])]
  rfl

lemma processPoints_hard (text : List Char) (m : SplitterMemory)
    (h1 : truthy m.terminal_at = false) (h2 : truthy m.internal_at = false)
    (h3 : truthy m.space_at = false) :
    processPoints text m = mkSentence text text.length := by
  unfold processPoints
  rw [if_neg (by simp [h1]), if_neg (by simp [h2]), if_neg (by simp [h3])]

/-- Unfolding of `amendedCut` on a window of known positive length. -/
lemma amendedCut_eq (w : List Char) (n : Nat) (hn : w.length = n + 1) :
    amendedCut w =
      (match posOnly (lastIdxLe isTerminalMark w n) with
       | some t => (w.take (t + 1), t + 1)
       | none =>
         match posOnly (lastIdxLe isInternalMark w n) with
         | some i => (w.take (i + 1), i + 1)
         | none =>
           match posOnly (lastIdxLe isSpaceMark w n) with
           | some s => (w.take s, s + 1)
           | none => (w, w.length)) := by
  unfold amendedCut rightmost
  rw [hn]

/-- Space/hard-cut part of the cut decision, once neither the terminal
marker nor the internal marker is truthy. -/
lemma extract_space_hard (w : List Char) (n : Nat) (hn : w.length = n + 1)
    (hn256 : n + 1 ≤ 256)
    (htf : truthy (scanLoop w n {}).terminal_at = false)
    (hif : truthy (scanLoop w n {}).internal_at = false)
    (hno : ∀ j, 1 ≤ j → j ≤ n → charAt w j ∉ terminal) :
    processPoints w (scanLoop w n {}) =
      Except.ok
        ⟨(match posOnly (lastIdxLe isSpaceMark w n) with
          | some s => (w.take s, s + 1)
          | none => (w, w.length)).1,
         (match posOnly (lastIdxLe isSpaceMark w n) with
          | some s => (w.take s, s + 1)
          | none => (w, w.length)).2⟩ := by
  have hsp : (scanLoop w n {}).space_at = lastIdxLe isSpaceMark w n := by
    rw [scan_space_at w n {} rfl hno]
  rcases hs : lastIdxLe isSpaceMark w n with _ | (_ | s)
  · have hsf : truthy (scanLoop w n {}).space_at = false := by
      rw [hsp, hs]
      rfl
    rw [processPoints_hard w _ htf hif hsf]
    exact mkSentence_ok (by omega) (by omega) (by omega) (by omega)
  · have hsf : truthy (scanLoop w n {}).space_at = false := by
      rw [hsp, hs]
      rfl
    rw [processPoints_hard w _ htf hif hsf]
    exact mkSentence_ok (by omega) (by omega) (by omega) (by omega)
  · have hss : (scanLoop w n {}).space_at = some (s + 1) := by
      rw [hsp]
      exact hs
    have hsle : s + 1 ≤ n := lastIdxLe_le _ _ hs
    have hlen : (w.take (s + 1)).length = s + 1 := by
      rw [List.length_take]
      omega
    rw [processPoints_space w _ s htf hif hss]
    exact mkSentence_ok (by rw [hlen]; omega) (by rw [hlen]; omega)
      (by omega) (by omega)

/-- Internal/space/hard-cut part of the cut decision, once the terminal
marker is not truthy (no Terminal at a positive index). -/
lemma extract_low (w : List Char) (n : Nat) (hn : w.length = n + 1)
    (hn256 : n + 1 ≤ 256)
    (htf : truthy (scanLoop w n {}).terminal_at = false)
    (hno : ∀ j, 1 ≤ j → j ≤ n → charAt w j ∉ terminal) :
    processPoints w (scanLoop w n {}) =
      Except.ok
        ⟨(match posOnly (lastIdxLe isInternalMark w n) with
          | some i => (w.take (i + 1), i + 1)
          | none =>
            match posOnly (lastIdxLe isSpaceMark w n) with
            | some s => (w.take s, s + 1)
            | none => (w, w.length)).1,
         (match posOnly (lastIdxLe isInternalMark w n) with
          | some i => (w.take (i + 1), i + 1)
          | none =>
            match posOnly (lastIdxLe isSpaceMark w n) with
            | some s => (w.take s, s + 1)
            | none => (w, w.length)).2⟩ := by
  have hin : (scanLoop w n {}).internal_at = lastIdxLe isInternalMark w n := by
    rw [scan_internal_at w n {} rfl hno]
  rcases hi : lastIdxLe isInternalMark w n with _ | (_ | i)
  · have hif : truthy (scanLoop w n {}).internal_at = false := by
      rw [hin, hi]
      rfl
    exact extract_space_hard w n hn hn256 htf hif hno
  · have hif : truthy (scanLoop w n {}).internal_at = false := by
      rw [hin, hi]
      rfl
    exact extract_space_hard w n hn hn256 htf hif hno
  · have hii : (scanLoop w n {}).internal_at = some (i + 1) := by
      rw [hin]
      exact hi
    have hile : i + 1 ≤ n := lastIdxLe_le _ _ hi
    have hlen : (w.take (i + 2)).length = i + 2 := by
      rw [List.length_take]
      omega
    rw [processPoints_internal w _ i htf hii]
    exact mkSentence_ok (by rw [hlen]; omega) (by rw [hlen]; omega)
      (by omega) (by omega)

/-- Central refinement lemma: on every window of the lengths that
`split` constructs, `_extract_sentence` succeeds and returns exactly the
cut described by `amendedCut` — the spec's priority law with rightmost
boundaries at window index `0` treated as absent. -/
lemma extract_eq_amendedCut (w : List Char) (hw1 : 1 ≤ w.length)
    (hw2 : w.length ≤ response_max_length) :
    extractSentence w = Except.ok ⟨(amendedCut w).1, (amendedCut w).2⟩ := by
  obtain ⟨n, hn⟩ : ∃ n, w.length = n + 1 := ⟨w.length - 1, by omega⟩
  have hn256 : n + 1 ≤ 256 := by
    rw [hn] at hw2
    exact hw2
  have he : extractSentence w = processPoints w (scanLoop w n {}) := by
    unfold extractSentence
    rw [hn]
  have hac := amendedCut_eq w n hn
  have hterm : (scanLoop w n {}).terminal_at = lastIdxLe isTerminalMark w n :=
    scan_terminal_at w n {} rfl
  rw [he, hac]
  rcases ht : lastIdxLe isTerminalMark w n with _ | (_ | t)
  · have hno : ∀ j, 1 ≤ j → j ≤ n → charAt w j ∉ terminal := by
      intro j hj1 hj2
      have := (lastIdxLe_none_iff n).1 ht j hj2
      simpa [isTerminalMark] using this
    have htf : truthy (scanLoop w n {}).terminal_at = false := by
      rw [hterm, ht]
      rfl
    exact extract_low w n hn hn256 htf hno
  · have hno : ∀ j, 1 ≤ j → j ≤ n → charAt w j ∉ terminal := by
      intro j hj1 hj2
      have := ((lastIdxLe_some_iff n 0).1 ht).2.2 j (by omega) hj2
      simpa [isTerminalMark] using this
    have htf : truthy (scanLoop w n {}).terminal_at = false := by
      rw [hterm, ht]
      rfl
    exact extract_low w n hn hn256 htf hno
  · have htr : (scanLoop w n {}).terminal_at = some (t + 1) := by
      rw [hterm]
      exact ht
    have htle : t + 1 ≤ n := lastIdxLe_le _ _ ht
    have hlen : (w.take (t + 2)).length = t + 2 := by
      rw [List.length_take]
      omega
    rw [processPoints_terminal w _ t htr]
    exact mkSentence_ok (by rw [hlen]; omega) (by rw [hlen]; omega)
      (by omega) (by omega)

/-- The next-window offset chosen by `amendedCut` consumes at least one
and at most all characters of the window. -/
lemma amendedCut_bounds (w : List Char) (h : 1 ≤ w.length) :
    1 ≤ (amendedCut w).2 ∧ (amendedCut w).2 ≤ w.length := by
  obtain ⟨n, hn⟩ : ∃ n, w.length = n + 1 := ⟨w.length - 1, by omega⟩
  rw [amendedCut_eq w n hn]
  rcases ht : lastIdxLe isTerminalMark w n with _ | (_ | t)
  · rcases hi : lastIdxLe isInternalMark w n with _ | (_ | i)
    · rcases hs : lastIdxLe isSpaceMark w n with _ | (_ | s)
      · simpa [posOnly] using by omega
      · simpa [posOnly] using by omega
      · have := lastIdxLe_le _ _ hs
        simpa [posOnly] using by omega
    · rcases hs : lastIdxLe isSpaceMark w n with _ | (_ | s)
      · simpa [posOnly] using by omega
      · simpa [posOnly] using by omega
      · have := lastIdxLe_le _ _ hs
        simpa [posOnly] using by omega
    · have := lastIdxLe_le _ _ hi
      simpa [posOnly] using by omega
  · rcases hi : lastIdxLe isInternalMark w n with _ | (_ | i)
    · rcases hs : lastIdxLe isSpaceMark w n with _ | (_ | s)
      · simpa [posOnly] using by omega
      · simpa [posOnly] using by omega
      · have := lastIdxLe_le _ _ hs
        simpa [posOnly] using by omega
    · rcases hs : lastIdxLe isSpaceMark w n with _ | (_ | s)
      · simpa [posOnly] using by omega
      · simpa [posOnly] using by omega
      · have := lastIdxLe_le _ _ hs
        simpa [posOnly] using by omega
    · have := lastIdxLe_le _ _ hi
      simpa [posOnly] using by omega
  · have := lastIdxLe_le _ _ ht
    simpa [posOnly] using by omega

/-- On a non-empty window of at most the budget size, extraction succeeds
and the consumed offset is between `1` and the window length. -/
lemma extract_window_ok (w : List Char) (hw1 : 1 ≤ w.length)
    (hw2 : w.length ≤ 256) :
    ∃ s : Sentence, extractSentence w = Except.ok s ∧
      1 ≤ s.end_ ∧ s.end_ ≤ w.length :=
  ⟨⟨(amendedCut w).1, (amendedCut w).2⟩,
    extract_eq_amendedCut w hw1 hw2,
    (amendedCut_bounds w hw1).1, (amendedCut_bounds w hw1).2⟩

/-- Extraction from the empty window fails `Sentence` validation. -/
lemma extract_nil : extractSentence [] = Except.error () := by
  rfl

lemma mkSentence_ok_elim {t : List Char} {e : Nat} {s : Sentence}
    (h : mkSentence t e = Except.ok s) :
    s.text = t ∧ s.end_ = e ∧ 1 ≤ s.text.length ∧ s.text.length ≤ 256 ∧
      1 ≤ s.end_ ∧ s.end_ ≤ 256 := by
  unfold mkSentence at h
  split at h
  · rename_i hcond
    cases h
    exact ⟨rfl, rfl, hcond.1, hcond.2.1, hcond.2.2.1, hcond.2.2.2⟩
  · exact Except.noConfusion h

lemma processPoints_ok_elim {w : List Char} {m : SplitterMemory} {s : Sentence}
    (h : processPoints w m = Except.ok s) :
    (1 ≤ s.text.length ∧ s.text.length ≤ 256 ∧ 1 ≤ s.end_ ∧ s.end_ ≤ 256) ∧
      ∃ k, s.text = w.take k := by
  unfold processPoints at h
  split_ifs at h <;>
    obtain ⟨h1, h2, h3, h4, h5, h6⟩ := mkSentence_ok_elim h
  · exact ⟨⟨h3, h4, h5, h6⟩, _, h1⟩
  · exact ⟨⟨h3, h4, h5, h6⟩, _, h1⟩
  · exact ⟨⟨h3, h4, h5, h6⟩, _, h1⟩
  · exact ⟨⟨h3, h4, h5, h6⟩, w.length, by rw [h1, List.take_length]⟩

/-- Whatever a successful extraction returns is a validated sentence whose
text is a prefix of the window. -/
lemma extract_ok_elim {w : List Char} {s : Sentence}
    (h : extractSentence w = Except.ok s) :
    (1 ≤ s.text.length ∧ s.text.length ≤ 256 ∧ 1 ≤ s.end_ ∧ s.end_ ≤ 256) ∧
      ∃ k, s.text = w.take k := by
  unfold extractSentence at h
  split at h
  · exact processPoints_ok_elim h
  · exact processPoints_ok_elim h

/-! ## The chunking loop -/

lemma pySlice_length (text : List Char) (a b : Nat) :
    (pySlice text a b).length = min (b - a) (text.length - a) := by
  simp [pySlice]

/-- Progress and counting: with enough fuel the loop never exhausts it,
yields at most one segment per remaining character, and at least one
segment per window of remaining input. -/
lemma splitLoop_spec (text : List Char) :
    ∀ fuel start, start ≤ text.length → text.length - start < fuel →
      (splitLoop text fuel start).2 ≠ SplitOutcome.fuelOut ∧
      (splitLoop text fuel start).1.length ≤ text.length - start ∧
      (text.length - start + 255) / 256 ≤ (splitLoop text fuel start).1.length := by
  intro fuel
  induction fuel with
  | zero =>
    intro start h1 h2
    omega
  | succ fuel ih =>
    intro start h1 h2
    unfold splitLoop
    by_cases hbr : start + response_max_length > text.length
    · rw [if_pos hbr]
      by_cases hempty : start = text.length
      · have hw : pySlice text start text.length = [] := by
          simp [pySlice, hempty]
        rw [hw, extract_nil]
        refine ⟨by simp, by simp, ?_⟩
        have : text.length - start = 0 := by omega
        rw [this]
        simp
      · have hlen : (pySlice text start text.length).length
            = text.length - start := by
          rw [pySlice_length]
          omega
        have hrm : response_max_length = 256 := rfl
        obtain ⟨s, hs, hs1, hs2⟩ :=
          extract_window_ok (pySlice text start text.length)
            (by rw [hlen]; omega) (by rw [hlen]; omega)
        rw [hs]
        refine ⟨by simp, by simp; omega, ?_⟩
        simp only [List.length_singleton]
        omega
    · rw [if_neg hbr]
      have hrm : response_max_length = 256 := rfl
      have hwlen : (pySlice text start (start + response_max_length)).length
          = 256 := by
        rw [pySlice_length]
        omega
      obtain ⟨s, hs, hs1, hs2⟩ :=
        extract_window_ok (pySlice text start (start + response_max_length))
          (by rw [hwlen]; omega) (le_of_eq hwlen)
      rw [hwlen] at hs2
      rw [hs]
      have hrec := ih (start + s.end_) (by omega) (by omega)
      refine ⟨hrec.1, ?_, ?_⟩
      · simp only [List.length_cons]
        omega
      · simp only [List.length_cons]
        omega

/-- Every segment the loop yields is a validated sentence text: non-empty
and at most 256 characters. -/
lemma splitLoop_length_bounds (text : List Char) :
    ∀ fuel start seg, seg ∈ (splitLoop text fuel start).1 →
      1 ≤ seg.length ∧ seg.length ≤ 256 := by
  intro fuel
  induction fuel with
  | zero =>
    intro start seg hmem
    simp [splitLoop] at hmem
  | succ fuel ih =>
    intro start seg hmem
    unfold splitLoop at hmem
    by_cases hbr : start + response_max_length > text.length
    · rw [if_pos hbr] at hmem
      cases hx : extractSentence (pySlice text start text.length) with
      | error e =>
        rw [hx] at hmem
        simp at hmem
      | ok s =>
        rw [hx] at hmem
        simp at hmem
        obtain ⟨⟨hb1, hb2, -, -⟩, -⟩ := extract_ok_elim hx
        rw [hmem]
        exact ⟨hb1, hb2⟩
    · rw [if_neg hbr] at hmem
      cases hx : extractSentence
          (pySlice text start (start + response_max_length)) with
      | error e =>
        rw [hx] at hmem
        simp at hmem
      | ok s =>
        rw [hx] at hmem
        simp at hmem
        rcases hmem with hmem | hmem
        · obtain ⟨⟨hb1, hb2, -, -⟩, -⟩ := extract_ok_elim hx
          rw [hmem]
          exact ⟨hb1, hb2⟩
        · exact ih _ seg hmem

/-- Every segment the loop yields is a verbatim prefix of the window it
was extracted from, hence a contiguous slice of the input. -/
lemma splitLoop_verbatim (text : List Char) :
    ∀ fuel start seg, seg ∈ (splitLoop text fuel start).1 →
      ∃ a k, seg = (pySlice text a (min (a + response_max_length)
        text.length)).take k := by
  intro fuel
  induction fuel with
  | zero =>
    intro start seg hmem
    simp [splitLoop] at hmem
  | succ fuel ih =>
    intro start seg hmem
    unfold splitLoop at hmem
    by_cases hbr : start + response_max_length > text.length
    · rw [if_pos hbr] at hmem
      cases hx : extractSentence (pySlice text start text.length) with
      | error e =>
        rw [hx] at hmem
        simp at hmem
      | ok s =>
        rw [hx] at hmem
        simp at hmem
        obtain ⟨-, k, hk⟩ := extract_ok_elim hx
        refine ⟨start, k, ?_⟩
        have hmin : min (start + response_max_length) text.length
            = text.length := by omega
        rw [hmin, hmem, hk]
    · rw [if_neg hbr] at hmem
      cases hx : extractSentence
          (pySlice text start (start + response_max_length)) with
      | error e =>
        rw [hx] at hmem
        simp at hmem
      | ok s =>
        rw [hx] at hmem
        simp at hmem
        rcases hmem with hmem | hmem
        · obtain ⟨-, k, hk⟩ := extract_ok_elim hx
          refine ⟨start, k, ?_⟩
          have hmin : min (start + response_max_length) text.length
              = start + response_max_length := by omega
          rw [hmin, hmem, hk]
        · exact ih _ seg hmem

/-! ## Claims -/

/-- Claim C1 (coverage/no-loss) fails on the code: on the input
`"aaa... a, aa"` (the repository's own test input, whose expected output in
`tests/test_fastapi.py` is the three segments `"aaa..."`, `"a,"`, `"aa"`),
`split` yields only `"aaa..."` and stops: the `break` after the final
window's first cut never consumes the remaining 6 characters `" a, aa"`,
so the consumed ranges cover 6 of the 12 input characters. -/
theorem claim_C1_tail_dropped :
    split "aaa... a, aa".data = (["aaa...".data], SplitOutcome.done) ∧
      ("aaa...".data).length = 6 ∧ ("aaa... a, aa".data).length = 12 := by
  decide

/-- Claim C2 (totality) fails on the code: the input of 256 repeated
`'a'`s lies within the accepted length range `[1, request_max_length]`,
yet after the first hard cut consumes the whole text the loop extracts
from the empty final window and `Sentence` validation fails (a pydantic
`ValidationError` at run time), so the stream ends in an error after one
segment. -/
theorem claim_C2_validation_error :
    (1 ≤ (List.replicate 256 'a').length ∧
      (List.replicate 256 'a').length ≤ request_max_length) ∧
    split (List.replicate 256 'a') =
      ([List.replicate 256 'a'], SplitOutcome.error) := by
  have hl : (List.replicate 256 'a').length = 256 := List.length_replicate _ _
  refine ⟨⟨by rw [hl]; omega, by rw [hl]; decide⟩, ?_⟩
  set_option maxRecDepth 10000 in decide

/-- Claim C3 (index-0 boundary validity) fails on the code: in the window
`".abc"` the winning class is Terminal and its rightmost occurrence is at
window index 0, but `_process_points` tests the marker with Python
truthiness (`if memory.terminal_at:`), so `terminal_at = 0` is treated as
absent and the window falls through to the hard cut: the whole window
`".abc"` is emitted with offset 4 instead of the segment `"."` with
offset 1. -/
theorem claim_C3_index0_not_honored :
    charAt ".abc".data 0 ∈ terminal ∧
      extractSentence ".abc".data = Except.ok ⟨".abc".data, 4⟩ ∧
      split ".abc".data = ([".abc".data], SplitOutcome.done) := by
  decide

/-- Claim C4 (cut-decision priority law) as stated is false at the window
`".abc"`: the window contains a Terminal character, but the code does not
cut at the rightmost Terminal index (0); it hard-cuts the whole window. -/
theorem claim_C4_counterexample :
    (∃ c ∈ ".abc".data, c ∈ terminal) ∧
      extractSentence ".abc".data ≠
        Except.ok ⟨(claimedCut ".abc".data).1, (claimedCut ".abc".data).2⟩ := by
  decide

/-- Claim C4 amended: the priority law Terminal > Internal > Space > hard
cut holds with each class's rightmost boundary treated as absent when it
sits at window index 0 (`amendedCut`): for every window of the sizes the
loop constructs, extraction succeeds and returns exactly that cut. -/
theorem claim_C4_amended (w : List Char) (hw1 : 1 ≤ w.length)
    (hw2 : w.length ≤ response_max_length) :
    extractSentence w = Except.ok ⟨(amendedCut w).1, (amendedCut w).2⟩ :=
  extract_eq_amendedCut w hw1 hw2

/-- Witness for `claim_C4_amended` at the concrete window `"ab. cd"`. -/
theorem claim_C4_witness :
    (1 ≤ ("ab. cd".data).length ∧
      ("ab. cd".data).length ≤ response_max_length) ∧
    extractSentence "ab. cd".data =
      Except.ok ⟨(amendedCut "ab. cd".data).1, (amendedCut "ab. cd".data).2⟩ :=
  ⟨by decide, claim_C4_amended "ab. cd".data (by decide) (by decide)⟩

/-- Claim C5 (trimming) is false on the code: the input `" x y"` yields
the single segment `" x"`, which still carries its leading space — no
leading/trailing whitespace removal is performed on emitted segments. -/
theorem claim_C5_counterexample :
    (split " x y".data).1 = [" x".data] ∧ hasOuterSpace " x".data = true := by
  decide

/-- Claim C5 amended: no trimming is applied — every yielded segment is a
verbatim contiguous slice of the input text, so whitespace inside the cut
(including leading/trailing whitespace) is preserved exactly. -/
theorem claim_C5_amended (text seg : List Char)
    (h : seg ∈ (split text).1) :
    ∃ a k, seg = (text.drop a).take k := by
  obtain ⟨a, k, hk⟩ := splitLoop_verbatim text (text.length + 1) 0 seg h
  refine ⟨a, min k (min (a + response_max_length) text.length - a), ?_⟩
  rw [hk]
  unfold pySlice
  rw [List.take_take]

/-- Witness for `claim_C5_amended` at the input `" x y"` and its yielded
segment `" x"`. -/
theorem claim_C5_witness :
    ∃ a k, " x".data = ((" x y".data).drop a).take k :=
  claim_C5_amended " x y".data " x".data (by decide)

/-- Claim C6 (segment length bound): every segment yielded by `split` has
length at least 1 and at most `response_max_length` (256) — each emitted
text passed the `Sentence` validation. -/
theorem claim_C6_length_bounds (text seg : List Char)
    (h : seg ∈ (split text).1) :
    1 ≤ seg.length ∧ seg.length ≤ response_max_length :=
  splitLoop_length_bounds text (text.length + 1) 0 seg h

/-- Witness for `claim_C6_length_bounds` at the input `"aaaaa"`. -/
theorem claim_C6_witness :
    ("aaaaa".data ∈ (split "aaaaa".data).1) ∧
      1 ≤ ("aaaaa".data).length ∧
      ("aaaaa".data).length ≤ response_max_length :=
  ⟨by decide, claim_C6_length_bounds "aaaaa".data "aaaaa".data (by decide)⟩

/-- Claim C7 (termination and step bounds): on any input of length `L`
the loop terminates — the fuel `L + 1` is never exhausted, so the
fuel-free Python loop ends — after yielding at most `L` segments and at
least `⌈L / 256⌉` segments (also on the runs that end in the validation
error of claim C2: the bounds count the segments yielded before it). -/
theorem claim_C7_termination_bounds (text : List Char) :
    (split text).2 ≠ SplitOutcome.fuelOut ∧
      (split text).1.length ≤ text.length ∧
      (text.length + 255) / 256 ≤ (split text).1.length := by
  have h := splitLoop_spec text (text.length + 1) 0 (by omega) (by omega)
  simpa [split] using h

/-- Claim C8 (output framing) fails on the code's terminating record: for
the accepted request `"aaaaa"` the stream of
`RequestBody._split_sentences` is one record per segment followed by one
terminating record — but that record is `{"text":" ","done":true}`
(built from `ResponseBody(text=' ', done=True)`), not the
`{"text":"Done","done":true}` the claim and the repository's own tests
(`tests/test_fastapi.py`, `tests/test_main.py`) require. -/
theorem claim_C8_terminator :
    splitSentences "aaaaa".data =
      (["\x7b\"text\":\"aaaaa\",\"done\":false\x7d\n".data,
        "\x7b\"text\":\" \",\"done\":true\x7d\n".data], SplitOutcome.done) ∧
    "\x7b\"text\":\" \",\"done\":true\x7d\n".data ≠
      "\x7b\"text\":\"Done\",\"done\":true\x7d\n".data := by
  decide

/-- Claim C9 (empty input) as stated is false: `split` applied to the
zero-length text does not return an error-free empty sequence — its single
extraction on the empty window fails validation. -/
theorem claim_C9_counterexample :
    ¬((split ([] : List Char)).1 = [] ∧
      (split ([] : List Char)).2 = SplitOutcome.done) := by
  decide

/-- Claim C9 amended: on the zero-length text `split` yields no segments
and ends in the validation error raised by extracting from the empty
window (rejection of empty input is indeed left to the transport layer,
but the engine errors rather than returning an empty sequence). -/
theorem claim_C9_amended :
    split ([] : List Char) = ([], SplitOutcome.error) := by
  decide

/-- Claim C10 (segments are verbatim substrings): every segment yielded by
`split` is a verbatim prefix of the window it was extracted from —
`pySlice text a (min (a + 256) |text|)` is the window starting at offset
`a` — and hence an unaltered contiguous substring of the input; in
particular no whitespace trimming is applied to what is emitted. -/
theorem claim_C10_verbatim (text seg : List Char)
    (h : seg ∈ (split text).1) :
    ∃ a k, seg =
      (pySlice text a (min (a + response_max_length) text.length)).take k :=
  splitLoop_verbatim text (text.length + 1) 0 seg h

/-- Witness for `claim_C10_verbatim` at the input `"aaaaa"`. -/
theorem claim_C10_witness :
    ∃ a k, "aaaaa".data =
      (pySlice "aaaaa".data a
        (min (a + response_max_length) ("aaaaa".data).length)).take k :=
  claim_C10_verbatim "aaaaa".data "aaaaa".data (by decide)

end Gat
